import Mathlib

/-!
Shallow embedding of `src/main.cpp` (class `GameCharacter`).

A C++ `std::string` is modelled as a `List Char`; `operator[]` at the
position one past the last character yields the NUL terminator, which we
model with `List.headD`/`nulChar`.  C++ `int` is modelled as `Int`
(every comparison performed by the code is a plain signed comparison,
so no wrap-around is involved in any validated path).  A throwing
operation is modelled with `Except`/`Option`, carrying the state of the
object and of the static counters at the throw point.
-/

/-- The NUL terminator character `'\0'`. -/
def nulChar : Char := Char.ofNat 0

/-- `'A' <= c && c <= 'Z'`, the uppercase test of `validateName` (line 223). -/
def isUpperChar (c : Char) : Prop := 'A' ≤ c ∧ c ≤ 'Z'

instance (c : Char) : Decidable (isUpperChar c) :=
  inferInstanceAs (Decidable ('A' ≤ c ∧ c ≤ 'Z'))

/-- Alphabetic test of the loop body (line 234): uppercase or lowercase Latin letter. -/
def isAlphaChar (c : Char) : Prop := ('A' ≤ c ∧ c ≤ 'Z') ∨ ('a' ≤ c ∧ c ≤ 'z')

instance (c : Char) : Decidable (isAlphaChar c) :=
  inferInstanceAs (Decidable (('A' ≤ c ∧ c ≤ 'Z') ∨ ('a' ≤ c ∧ c ≤ 'z')))

/-- The six distinct `invalid_argument` throws of `validateName` (lines 219-245). -/
inductive NameError where
  | empty
  | mustStartUppercase
  | tooLong
  | trailingSpace
  | doubleSpace
  | invalidChar
deriving DecidableEq, Repr

/-- Every `invalid_argument` the class can throw. -/
inductive CharError where
  | nameErr : NameError → CharError
  | healthNotPositive
  | healthTooHigh
  | attackPowerTooHigh
deriving DecidableEq, Repr

/-- The `for` loop of `validateName` (lines 229-244): `space` is the mutable
flag, the character one past the end reads as the NUL terminator
(`characterName[i+1]` at `i = length-1`). -/
def nameLoop : List Char → Bool → Option NameError
  | [], _ => none
  | c :: rest, space =>
    if c = ' ' ∧ rest.headD nulChar = nulChar then some NameError.trailingSpace
    else if ¬ isAlphaChar c then
      if c = ' ' ∧ space = false then nameLoop rest true
      else if space = true then some NameError.doubleSpace
      else some NameError.invalidChar
    else nameLoop rest false

/-- `validateName` (lines 219-245): `some e` models `throw e`, `none` models
normal return.  `MAX_NAME = 32`. -/
def validateName : List Char → Option NameError
  | [] => some NameError.empty
  | c :: rest =>
    if c < 'A' ∨ 'Z' < c then some NameError.mustStartUppercase
    else if 32 < (c :: rest).length then some NameError.tooLong
    else nameLoop (c :: rest) false

/-- `validateHealth` (lines 186-193).  `MAX_HEALTH = 1000`. -/
def validateHealth (characterHealth : Int) : Option CharError :=
  if characterHealth ≤ 0 ∧ characterHealth ≠ -1 then some CharError.healthNotPositive
  else if characterHealth > 1000 then some CharError.healthTooHigh
  else none

/-- `validateAttackPower` (lines 204-208).  `MAX_POWER = 500`. -/
def validateAttackPower (characterAttackPower : Int) : Option CharError :=
  if characterAttackPower > 500 then some CharError.attackPowerTooHigh
  else none

/-- The instance fields of `GameCharacter` (lines 25-29). -/
structure GameCharacter where
  name : List Char
  health : Int
  attackPower : Int
  id : Int
deriving DecidableEq, Repr

/-- The static members `uniqueId` and `ObjectCount` (lines 31-32). -/
structure Registry where
  uniqueId : Int
  ObjectCount : Int
deriving DecidableEq, Repr

/-- Static initializers `uniqueId = 0`, `ObjectCount = 0` (lines 248-249). -/
def initialRegistry : Registry := ⟨0, 0⟩

/-- The object before `init` runs: the `string` member is default-constructed
to empty; the indeterminate `int` members are modelled as `0`. -/
def blankCharacter : GameCharacter := ⟨[], 0, 0, 0⟩

/-- `setName` (lines 71-74): validate, then assign; the throw happens before
the assignment, so on error the object is unchanged. -/
def setName (c : GameCharacter) (characterName : List Char) :
    Except CharError GameCharacter :=
  match validateName characterName with
  | some e => Except.error (CharError.nameErr e)
  | none => Except.ok { c with name := characterName }

/-- `setHealth` (lines 161-164). -/
def setHealth (c : GameCharacter) (characterHealth : Int) :
    Except CharError GameCharacter :=
  match validateHealth characterHealth with
  | some e => Except.error e
  | none => Except.ok { c with health := characterHealth }

/-- `setAttackPower` (lines 172-175). -/
def setAttackPower (c : GameCharacter) (characterAttackPower : Int) :
    Except CharError GameCharacter :=
  match validateAttackPower characterAttackPower with
  | some e => Except.error e
  | none => Except.ok { c with attackPower := characterAttackPower }

/-- `init` (lines 145-151), the body of both constructors: `setName`,
`setHealth`, `setAttackPower` in that order, then `id = uniqueId++` and
`++ObjectCount`.  An error result carries the object's fields and the static
counters as they stand at the throw point, which is what the C++ program
holds when the constructor exception propagates. -/
def init (c : GameCharacter) (r : Registry) (name : List Char)
    (health attackPower : Int) :
    Except (CharError × GameCharacter × Registry) (GameCharacter × Registry) :=
  match setName c name with
  | Except.error e => Except.error (e, c, r)
  | Except.ok c1 =>
    match setHealth c1 health with
    | Except.error e => Except.error (e, c1, r)
    | Except.ok c2 =>
      match setAttackPower c2 attackPower with
      | Except.error e => Except.error (e, c2, r)
      | Except.ok c3 =>
        Except.ok ({ c3 with id := r.uniqueId },
          { uniqueId := r.uniqueId + 1, ObjectCount := r.ObjectCount + 1 })

/-- `new GameCharacter(name, health, attackPower)`: runs `init` on a fresh
object; a constructor exception means no object exists afterwards. -/
def createWith (r : Registry) (name : List Char) (health attackPower : Int) :
    Except (CharError × GameCharacter × Registry) (GameCharacter × Registry) :=
  init blankCharacter r name health attackPower

/-- A `setName` call on an existing object, observed as mutation: the pair is
the object after the call together with the thrown error, if any. -/
def setNameMut (c : GameCharacter) (characterName : List Char) :
    GameCharacter × Option CharError :=
  match setName c characterName with
  | Except.error e => (c, some e)
  | Except.ok c' => (c', none)

/-- `getName` (lines 80-82). -/
def getName (c : GameCharacter) : List Char := c.name

/-- `getHealth` (lines 88-90). -/
def getHealth (c : GameCharacter) : Int := c.health

/-- `getAttackPower` (lines 96-98). -/
def getAttackPower (c : GameCharacter) : Int := c.attackPower

/-- `getPersonalId` (lines 104-106). -/
def getPersonalId (c : GameCharacter) : Int := c.id

/-- `toString` (lines 112-116): `ss << name << " " << health << " " << attackPower`;
`operator<<` on `int` prints the decimal representation, which is `Int.repr`. -/
def GameCharacter.toString (c : GameCharacter) : String :=
  String.mk c.name ++ " " ++ Int.repr c.health ++ " " ++ Int.repr c.attackPower

/-- The destructor `~GameCharacter` (lines 58-60): `--ObjectCount`. -/
def dispose (r : Registry) : Registry :=
  { r with ObjectCount := r.ObjectCount - 1 }

/-- Disposing `m` objects in sequence. -/
def disposeN : Nat → Registry → Registry
  | 0, r => r
  | m + 1, r => disposeN m (dispose r)

/-- A sequence of construction attempts, each a `(name, health, attackPower)`
triple handed to `createWith`; returns the final counters and the list of
ids handed out to the successful constructions, in order. -/
def runCreations : Registry → List (List Char × Int × Int) → Registry × List Int
  | r, [] => (r, [])
  | r, (n, h, a) :: rest =>
    match createWith r n h a with
    | Except.error _ => runCreations r rest
    | Except.ok (c, r') =>
      let p := runCreations r' rest
      (p.1, c.id :: p.2)

/-! ## Spec-side predicates (from the spec's words, for comparison) -/

/-- The last character of a name; `nulChar` for the empty name. -/
def lastChar : List Char → Char
  | [] => nulChar
  | [c] => c
  | _ :: c :: rest => lastChar (c :: rest)

/-- Spec: "no two consecutive spaces". -/
def noDoubleSpace : List Char → Prop
  | [] => True
  | [_] => True
  | a :: b :: rest => ¬(a = ' ' ∧ b = ' ') ∧ noDoubleSpace (b :: rest)

instance noDoubleSpaceDec : (s : List Char) → Decidable (noDoubleSpace s)
  | [] => inferInstanceAs (Decidable True)
  | [_] => inferInstanceAs (Decidable True)
  | a :: b :: rest =>
    have : Decidable (noDoubleSpace (b :: rest)) := noDoubleSpaceDec (b :: rest)
    inferInstanceAs (Decidable (¬(a = ' ' ∧ b = ' ') ∧ noDoubleSpace (b :: rest)))

/-- The name grammar exactly as the spec words it: non-empty, first character
an uppercase Latin letter, length at most `MAX_NAME = 32`, every character a
Latin letter or a space, no two consecutive spaces, and not ending in a
space. -/
def nameSpecOk (s : List Char) : Prop :=
  s ≠ [] ∧ isUpperChar (s.headD nulChar) ∧ s.length ≤ 32 ∧
    (∀ c ∈ s, isAlphaChar c ∨ c = ' ') ∧ noDoubleSpace s ∧ lastChar s ≠ ' '

instance (s : List Char) : Decidable (nameSpecOk s) :=
  inferInstanceAs (Decidable (s ≠ [] ∧ isUpperChar (s.headD nulChar) ∧
    s.length ≤ 32 ∧ (∀ c ∈ s, isAlphaChar c ∨ c = ' ') ∧ noDoubleSpace s ∧
    lastChar s ≠ ' '))

/-- `consecutiveFrom k l`: the list `l` is exactly `k, k+1, k+2, …` — the
"no gaps, no repeats, in creation order" shape of assigned identities. -/
def consecutiveFrom : Int → List Int → Prop
  | _, [] => True
  | k, x :: xs => x = k ∧ consecutiveFrom (k + 1) xs

/-! ## Helper lemmas -/

lemma nul_ne_space : nulChar ≠ ' ' := by decide

lemma space_ne_nul : (' ' : Char) ≠ nulChar := by decide

lemma not_isAlphaChar_nul : ¬ isAlphaChar nulChar := by decide

lemma not_isAlphaChar_space : ¬ isAlphaChar ' ' := by decide

lemma isAlphaChar_ne_space {c : Char} (h : isAlphaChar c) : c ≠ ' ' := by
  intro hc; subst hc; exact not_isAlphaChar_space h

lemma isUpperChar_isAlphaChar {c : Char} (h : isUpperChar c) : isAlphaChar c :=
  Or.inl h

lemma init_ok_inv {c0 c : GameCharacter} {r r' : Registry} {n : List Char}
    {h a : Int} (hok : init c0 r n h a = Except.ok (c, r')) :
    c.id = r.uniqueId ∧ r' = ⟨r.uniqueId + 1, r.ObjectCount + 1⟩ := by
  unfold init setName setHealth setAttackPower at hok
  cases hn : validateName n <;> rw [hn] at hok <;> simp at hok
  cases hh : validateHealth h <;> rw [hh] at hok <;> simp at hok
  cases ha : validateAttackPower a <;> rw [ha] at hok <;> simp at hok
  obtain ⟨hc, hr⟩ := hok
  subst hc; subst hr
  exact ⟨rfl, rfl⟩

lemma runCreations_ids (attempts : List (List Char × Int × Int)) :
    ∀ r : Registry,
      consecutiveFrom r.uniqueId (runCreations r attempts).2 ∧
      (runCreations r attempts).1.uniqueId =
        r.uniqueId + ((runCreations r attempts).2.length : Int) := by
  induction attempts with
  | nil => intro r; simp [runCreations, consecutiveFrom]
  | cons t rest ih =>
    intro r
    obtain ⟨n, h, a⟩ := t
    cases hinit : createWith r n h a with
    | error e =>
      simpa [runCreations, hinit] using ih r
    | ok p =>
      obtain ⟨c, r'⟩ := p
      obtain ⟨hid, hr'⟩ := init_ok_inv hinit
      subst hr'
      have hrest := ih ⟨r.uniqueId + 1, r.ObjectCount + 1⟩
      simp only [runCreations, hinit, consecutiveFrom, List.length_cons]
      refine ⟨⟨hid, hrest.1⟩, ?_⟩
      rw [hrest.2]
      show r.uniqueId + 1 + _ = _
      push_cast
      ring

lemma nameLoop_eq_none_iff (s : List Char) :
    ∀ flag : Bool,
      nameLoop s flag = none ↔
        ((∀ c ∈ s, isAlphaChar c ∨ c = ' ') ∧ noDoubleSpace s ∧
          (flag = true → s.headD nulChar ≠ ' ') ∧ lastChar s ≠ ' ') := by
  induction s with
  | nil =>
    intro flag
    simp [nameLoop, noDoubleSpace, lastChar, nul_ne_space]
  | cons c rest ih =>
    intro flag
    cases rest with
    | nil =>
      by_cases hc : c = ' '
      · subst hc
        simp [nameLoop, lastChar, not_isAlphaChar_space]
      · by_cases ha : isAlphaChar c
        · simp [nameLoop, hc, ha, noDoubleSpace, lastChar]
        · cases flag <;> simp [nameLoop, hc, ha, lastChar]
    | cons d r =>
      by_cases hc : c = ' '
      · subst hc
        by_cases hd : d = nulChar
        · subst hd
          simp [nameLoop, noDoubleSpace, not_isAlphaChar_nul, nul_ne_space]
        · cases flag with
          | false =>
            rw [show nameLoop (' ' :: d :: r) false = nameLoop (d :: r) true from by
              simp [nameLoop, hd, not_isAlphaChar_space]]
            rw [ih true]
            simp [noDoubleSpace, lastChar, hd, not_isAlphaChar_space]
            tauto
          | true =>
            simp [nameLoop, hd, not_isAlphaChar_space]
      · by_cases ha : isAlphaChar c
        · rw [show nameLoop (c :: d :: r) flag = nameLoop (d :: r) false from by
            simp [nameLoop, hc, ha]]
          rw [ih false]
          simp [noDoubleSpace, lastChar, hc, ha]
        · cases flag <;> simp [nameLoop, hc, ha, lastChar]

lemma validateName_eq_loop {c : Char} {rest : List Char} (hu : isUpperChar c)
    (hlen : (c :: rest).length ≤ 32) :
    validateName (c :: rest) = nameLoop (c :: rest) false := by
  obtain ⟨h1, h2⟩ := hu
  have hx : ¬(c < 'A' ∨ 'Z' < c) := by push_neg; exact ⟨h1, h2⟩
  have hy : ¬(32 < (c :: rest).length) := Nat.not_lt.2 hlen
  simp only [validateName, if_neg hx, if_neg hy]

lemma alphaOrSpace_ne_nul {c : Char} (h : isAlphaChar c ∨ c = ' ') :
    c ≠ nulChar := by
  intro hc
  subst hc
  rcases h with h | h
  · exact not_isAlphaChar_nul h
  · exact nul_ne_space h

/-- Scanning a clean prefix — letters and single non-consecutive spaces, with
the boundary guarded — throws nothing and leaves the `space` flag set exactly
when the prefix ends in a space. -/
lemma nameLoop_cleanPrefix_append (pre : List Char) :
    ∀ (t : List Char) (flag : Bool),
      pre ≠ [] →
      (∀ x ∈ pre, isAlphaChar x ∨ x = ' ') →
      noDoubleSpace pre →
      (flag = true → pre.headD nulChar ≠ ' ') →
      (lastChar pre = ' ' → t.headD nulChar ≠ nulChar) →
      nameLoop (pre ++ t) flag =
        nameLoop t (if lastChar pre = ' ' then true else false) := by
  induction pre with
  | nil => intro t flag hne _ _ _ _; exact absurd rfl hne
  | cons c p ih =>
    intro t flag _ hall hnd hflag hb
    cases p with
    | nil =>
      by_cases hc : c = ' '
      · subst hc
        cases flag with
        | true => exact absurd rfl (hflag rfl)
        | false =>
          have ht : t.headD nulChar ≠ nulChar := hb (by simp [lastChar])
          have ht' : t.head?.getD nulChar ≠ nulChar := by simpa using ht
          simp [nameLoop, ht', not_isAlphaChar_space, lastChar]
      · have hca : isAlphaChar c := (hall c (by simp)).resolve_right hc
        simp [nameLoop, hc, hca, lastChar]
    | cons d q =>
      have hdos : isAlphaChar d ∨ d = ' ' := hall d (by simp)
      have hdn : d ≠ nulChar := alphaOrSpace_ne_nul hdos
      have htail : ∀ x ∈ d :: q, isAlphaChar x ∨ x = ' ' :=
        fun x hx => hall x (List.mem_cons_of_mem c hx)
      by_cases hc : c = ' '
      · subst hc
        cases flag with
        | true => exact absurd rfl (hflag rfl)
        | false =>
          have hds : d ≠ ' ' := fun hd => hnd.1 ⟨rfl, hd⟩
          have step : nameLoop ((' ' :: d :: q) ++ t) false =
              nameLoop ((d :: q) ++ t) true := by
            simp [nameLoop, hdn, not_isAlphaChar_space]
          rw [step, ih t true (by simp) htail hnd.2 (fun _ => hds)
            (fun h => hb h)]
          simp [lastChar]
      · have hca : isAlphaChar c := (hall c (by simp)).resolve_right hc
        have step : nameLoop ((c :: d :: q) ++ t) flag =
            nameLoop ((d :: q) ++ t) false := by
          simp [nameLoop, hc, hca]
        rw [step, ih t false (by simp) htail hnd.2 (by simp) (fun h => hb h)]
        simp [lastChar]

/-- A name made of an uppercase letter, a clean prefix and a suffix `t` is
validated exactly as the scan of `t`, entered with the `space` flag recording
whether the prefix ended in a space. -/
lemma validateName_clean (p : Char) (pre t : List Char) (hp : isUpperChar p)
    (hpre : ∀ x ∈ pre, isAlphaChar x ∨ x = ' ')
    (hnd : noDoubleSpace (p :: pre))
    (hb : lastChar (p :: pre) = ' ' → t.headD nulChar ≠ nulChar)
    (hlen : (p :: pre ++ t).length ≤ 32) :
    validateName (p :: pre ++ t) =
      nameLoop t (if lastChar (p :: pre) = ' ' then true else false) := by
  refine (validateName_eq_loop hp hlen).trans ?_
  refine nameLoop_cleanPrefix_append (p :: pre) t false (by simp) ?_ hnd
    (by simp) hb
  intro x hx
  rcases List.mem_cons.mp hx with hx | hx
  · exact Or.inl (hx ▸ isUpperChar_isAlphaChar hp)
  · exact hpre x hx

/-! ## Claims -/

/-- C1: name validation, shared by construction and rename (`setName`), accepts
a string `n` if and only if `n` is non-empty, starts with an uppercase Latin
letter, has length at most 32, contains only Latin letters and spaces, has no
two consecutive spaces, and does not end in a space; and `setName` accepts
exactly the names that construction accepts. -/
theorem validateName_iff_spec (s : List Char) :
    (validateName s = none ↔ nameSpecOk s) ∧
    (∀ (c : GameCharacter) (r : Registry) (h a : Int),
      validateHealth h = none → validateAttackPower a = none →
      ((∃ c', setName c s = Except.ok c') ↔
        ∃ out, init blankCharacter r s h a = Except.ok out)) := by
  constructor
  · cases s with
    | nil => simp [validateName, nameSpecOk]
    | cons c rest =>
      by_cases hu : isUpperChar c
      · by_cases hlen : (c :: rest).length ≤ 32
        · have hlen' : rest.length ≤ 31 := by
            simp only [List.length_cons] at hlen; omega
          rw [validateName_eq_loop hu hlen, nameLoop_eq_none_iff]
          simp [nameSpecOk, hu, hlen']
        · have hv : validateName (c :: rest) = some NameError.tooLong := by
            obtain ⟨h1, h2⟩ := hu
            have hx : ¬(c < 'A' ∨ 'Z' < c) := by push_neg; exact ⟨h1, h2⟩
            simp only [validateName]
            rw [if_neg hx, if_pos (Nat.lt_of_not_le hlen)]
          have hlen' : ¬ rest.length ≤ 31 := by
            simp only [List.length_cons] at hlen; omega
          simp [hv, nameSpecOk, hlen']
      · have hx : c < 'A' ∨ 'Z' < c := by
          rcases not_and_or.mp hu with h | h
          · exact Or.inl (not_le.mp h)
          · exact Or.inr (not_le.mp h)
        have hv : validateName (c :: rest) = some NameError.mustStartUppercase := by
          simp [validateName, if_pos hx]
        simp [hv, nameSpecOk, hu]
  · intro c r h a hh ha
    cases hn : validateName s with
    | some e => simp [setName, init, hn]
    | none => simp [setName, init, hn, setHealth, setAttackPower, hh, ha]

/-- Witness for C1 at the concrete name `"Ab"`. -/
theorem validateName_iff_spec_witness :
    (validateName ['A', 'b'] = none ↔ nameSpecOk ['A', 'b']) ∧
    ((∃ c', setName blankCharacter ['A', 'b'] = Except.ok c') ↔
      ∃ out, init blankCharacter initialRegistry ['A', 'b'] (-1) 0 = Except.ok out) :=
  ⟨(validateName_iff_spec ['A', 'b']).1,
    (validateName_iff_spec ['A', 'b']).2 blankCharacter initialRegistry (-1) 0
      (by decide) (by decide)⟩

/-- C2 counterexample: `createWith("A", 0, 7)` fails on the health check, yet at
the throw point the name `"A"` has already been committed to the object under
construction — the name field at failure differs from the field before the
call, so the fields are not all uncommitted when the operation fails. -/
theorem createWith_commits_name_before_health :
    createWith ⟨0, 0⟩ ['A'] 0 7 =
      Except.error (CharError.healthNotPositive, ⟨['A'], 0, 0, 0⟩, ⟨0, 0⟩) ∧
    (⟨['A'], 0, 0, 0⟩ : GameCharacter).name ≠ blankCharacter.name :=
  ⟨by rfl, by decide⟩

/-- C2 (amended): `createWith` validates in the order name, health, attackPower,
but commits each field immediately after its own validation: when the name is
invalid nothing has been committed; when the health is invalid the name has
already been written to the object under construction; when the attack power is
invalid both name and health have been written.  In every failing case no
identity is assigned and the static counters are untouched, and the
partially-initialized object never becomes an entity. -/
theorem init_field_commit_order (c : GameCharacter) (r : Registry)
    (n : List Char) (h a : Int) :
    (∀ e, validateName n = some e →
      init c r n h a = Except.error (CharError.nameErr e, c, r)) ∧
    (∀ e, validateName n = none → validateHealth h = some e →
      init c r n h a = Except.error (e, { c with name := n }, r)) ∧
    (∀ e, validateName n = none → validateHealth h = none →
      validateAttackPower a = some e →
      init c r n h a = Except.error (e, { c with name := n, health := h }, r)) := by
  refine ⟨fun e he => ?_, fun e hn he => ?_, fun e hn hh he => ?_⟩
  · simp [init, setName, he]
  · simp [init, setName, setHealth, hn, he]
  · simp [init, setName, setHealth, setAttackPower, hn, hh, he]

/-- Witness for C2 (amended) at `("bob",10,10)`, `("A",0,7)` and `("A",5,501)`. -/
theorem init_field_commit_order_witness :
    init blankCharacter initialRegistry ['b', 'o', 'b'] 10 10 =
      Except.error (CharError.nameErr NameError.mustStartUppercase,
        blankCharacter, initialRegistry) ∧
    init blankCharacter initialRegistry ['A'] 0 7 =
      Except.error (CharError.healthNotPositive,
        { blankCharacter with name := ['A'] }, initialRegistry) ∧
    init blankCharacter initialRegistry ['A'] 5 501 =
      Except.error (CharError.attackPowerTooHigh,
        { blankCharacter with name := ['A'], health := 5 }, initialRegistry) :=
  ⟨(init_field_commit_order blankCharacter initialRegistry ['b', 'o', 'b'] 10 10).1
      NameError.mustStartUppercase (by decide),
   (init_field_commit_order blankCharacter initialRegistry ['A'] 0 7).2.1
      CharError.healthNotPositive (by decide) (by decide),
   (init_field_commit_order blankCharacter initialRegistry ['A'] 5 501).2.2
      CharError.attackPowerTooHigh (by decide) (by decide) (by decide)⟩

/-- C3: every invalid input makes the operation fail and leaves prior state
untouched: an invalid triple makes `createWith` fail with the static counters
exactly as before (and no entity is produced), and a failed `setName` leaves
the object — name and every other field — unchanged. -/
theorem invalid_input_frame :
    (∀ (r : Registry) (n : List Char) (h a : Int),
      ¬(validateName n = none ∧ validateHealth h = none ∧
          validateAttackPower a = none) →
      ∃ e c', createWith r n h a = Except.error (e, c', r)) ∧
    (∀ (c : GameCharacter) (n : List Char) (e : CharError),
      (setNameMut c n).2 = some e → (setNameMut c n).1 = c) := by
  constructor
  · intro r n h a hbad
    cases hn : validateName n with
    | some e =>
      exact ⟨CharError.nameErr e, blankCharacter,
        by simp [createWith, init, setName, hn]⟩
    | none =>
      cases hh : validateHealth h with
      | some e =>
        exact ⟨e, { blankCharacter with name := n },
          by simp [createWith, init, setName, setHealth, hn, hh]⟩
      | none =>
        cases ha : validateAttackPower a with
        | some e =>
          exact ⟨e, { blankCharacter with name := n, health := h },
            by simp [createWith, init, setName, setHealth, setAttackPower, hn, hh, ha]⟩
        | none => exact absurd ⟨hn, hh, ha⟩ hbad
  · intro c n e
    unfold setNameMut setName
    cases validateName n <;> simp

/-- Witness for C3 at the rejected name `"bob"`. -/
theorem invalid_input_frame_witness :
    (∃ e c', createWith initialRegistry ['b', 'o', 'b'] 10 10 =
        Except.error (e, c', initialRegistry)) ∧
    (setNameMut blankCharacter ['b', 'o', 'b']).1 = blankCharacter :=
  ⟨invalid_input_frame.1 initialRegistry ['b', 'o', 'b'] 10 10 (by decide),
   invalid_input_frame.2 blankCharacter ['b', 'o', 'b']
      (CharError.nameErr NameError.mustStartUppercase) (by decide)⟩

/-- C4 counterexample: in `"A !"` the only non-grammar character is the
non-space `'!'` (there are no two consecutive spaces), yet validation reports
`NameDoubleSpace`, not `NameInvalidCharacter`. -/
theorem nonalpha_after_space_misreported :
    validateName ['A', ' ', '!'] = some NameError.doubleSpace ∧
    validateName ['A', ' ', '!'] ≠ some NameError.invalidChar ∧
    ¬ isAlphaChar '!' ∧ '!' ≠ ' ' ∧ noDoubleSpace ['A', ' ', '!'] := by
  refine ⟨by decide, by decide, by decide, by decide, by decide⟩

/-- C4 (amended): each rejection reports the first violation the scan meets —
empty, bad first character, too long, then left-to-right through the
characters, the scan reaching the offending position through any clean prefix
of letters and single non-consecutive spaces — except that a non-NUL
non-alphabetic non-space character immediately following a space is reported
as `NameDoubleSpace` rather than `NameInvalidCharacter`; a non-alphabetic
non-space character not preceded by a space is `NameInvalidCharacter`, a
second consecutive space not immediately followed by the NUL read is
`NameDoubleSpace`, and a name ending in a space is `NameTrailingSpace`. -/
theorem validateName_first_violation :
    validateName [] = some NameError.empty ∧
    (∀ (c : Char) (s : List Char), ¬ isUpperChar c →
      validateName (c :: s) = some NameError.mustStartUppercase) ∧
    (∀ (c : Char) (s : List Char), isUpperChar c → 32 < (c :: s).length →
      validateName (c :: s) = some NameError.tooLong) ∧
    (∀ (p : Char) (pre : List Char) (c : Char) (rest : List Char),
      isUpperChar p → (∀ x ∈ pre, isAlphaChar x ∨ x = ' ') →
      noDoubleSpace (p :: pre) → lastChar (p :: pre) ≠ ' ' →
      ¬ isAlphaChar c → c ≠ ' ' → c ≠ nulChar →
      (p :: pre ++ ' ' :: c :: rest).length ≤ 32 →
      validateName (p :: pre ++ ' ' :: c :: rest) = some NameError.doubleSpace) ∧
    (∀ (p : Char) (pre : List Char) (d : Char) (rest : List Char),
      isUpperChar p → (∀ x ∈ pre, isAlphaChar x ∨ x = ' ') →
      noDoubleSpace (p :: pre) → lastChar (p :: pre) ≠ ' ' → d ≠ nulChar →
      (p :: pre ++ ' ' :: ' ' :: d :: rest).length ≤ 32 →
      validateName (p :: pre ++ ' ' :: ' ' :: d :: rest) =
        some NameError.doubleSpace) ∧
    (∀ (p : Char) (pre : List Char),
      isUpperChar p → (∀ x ∈ pre, isAlphaChar x ∨ x = ' ') →
      noDoubleSpace (p :: pre) →
      (p :: pre ++ [' ']).length ≤ 32 →
      validateName (p :: pre ++ [' ']) = some NameError.trailingSpace) ∧
    (∀ (p : Char) (pre : List Char) (c : Char) (rest : List Char),
      isUpperChar p → (∀ x ∈ pre, isAlphaChar x ∨ x = ' ') →
      noDoubleSpace (p :: pre) → lastChar (p :: pre) ≠ ' ' →
      ¬ isAlphaChar c → c ≠ ' ' →
      (p :: pre ++ c :: rest).length ≤ 32 →
      validateName (p :: pre ++ c :: rest) = some NameError.invalidChar) := by
  refine ⟨rfl, ?_, ?_, ?_, ?_, ?_, ?_⟩
  · intro c s hc
    have hx : c < 'A' ∨ 'Z' < c := by
      rcases not_and_or.mp hc with h | h
      · exact Or.inl (not_le.mp h)
      · exact Or.inr (not_le.mp h)
    simp [validateName, if_pos hx]
  · intro c s hc hlen
    obtain ⟨h1, h2⟩ := hc
    have hx : ¬(c < 'A' ∨ 'Z' < c) := by push_neg; exact ⟨h1, h2⟩
    simp only [validateName]
    rw [if_neg hx, if_pos hlen]
  · intro p pre c rest hp hpre hnd hlast hca hcs hcn hlen
    rw [validateName_clean p pre (' ' :: c :: rest) hp hpre hnd
      (fun hx => absurd hx hlast) hlen, if_neg hlast]
    simp [nameLoop, hca, hcs, hcn, not_isAlphaChar_space]
  · intro p pre d rest hp hpre hnd hlast hd hlen
    rw [validateName_clean p pre (' ' :: ' ' :: d :: rest) hp hpre hnd
      (fun hx => absurd hx hlast) hlen, if_neg hlast]
    simp [nameLoop, hd, space_ne_nul, not_isAlphaChar_space]
  · intro p pre hp hpre hnd hlen
    rw [validateName_clean p pre [' '] hp hpre hnd (fun _ => space_ne_nul)
      hlen]
    simp [nameLoop]
  · intro p pre c rest hp hpre hnd hlast hca hcs hlen
    rw [validateName_clean p pre (c :: rest) hp hpre hnd
      (fun hx => absurd hx hlast) hlen, if_neg hlast]
    simp [nameLoop, hca, hcs]

/-- Witness for C4 (amended) at `"a"`, a 33-character name, and the
multi-run names `"A b !"`, `"A b  c"`, `"A b "` and `"A b!"`. -/
theorem validateName_first_violation_witness :
    validateName [] = some NameError.empty ∧
    validateName ['a'] = some NameError.mustStartUppercase ∧
    validateName ('A' :: List.replicate 32 'b') = some NameError.tooLong ∧
    validateName ('A' :: [' ', 'b'] ++ ' ' :: '!' :: []) =
      some NameError.doubleSpace ∧
    validateName ('A' :: [' ', 'b'] ++ ' ' :: ' ' :: 'c' :: []) =
      some NameError.doubleSpace ∧
    validateName ('A' :: [' ', 'b'] ++ [' ']) =
      some NameError.trailingSpace ∧
    validateName ('A' :: [' ', 'b'] ++ '!' :: []) =
      some NameError.invalidChar :=
  ⟨validateName_first_violation.1,
   validateName_first_violation.2.1 'a' [] (by decide),
   validateName_first_violation.2.2.1 'A' (List.replicate 32 'b') (by decide)
      (by decide),
   validateName_first_violation.2.2.2.1 'A' [' ', 'b'] '!' [] (by decide)
      (by decide) (by decide) (by decide) (by decide) (by decide) (by decide)
      (by decide),
   validateName_first_violation.2.2.2.2.1 'A' [' ', 'b'] 'c' [] (by decide)
      (by decide) (by decide) (by decide) (by decide) (by decide),
   validateName_first_violation.2.2.2.2.2.1 'A' [' ', 'b'] (by decide)
      (by decide) (by decide) (by decide),
   validateName_first_violation.2.2.2.2.2.2 'A' [' ', 'b'] '!' [] (by decide)
      (by decide) (by decide) (by decide) (by decide) (by decide)
      (by decide)⟩

/-- C5: starting from counter value `k`, the identities handed to the
successful creations of any attempt sequence are exactly `k, k+1, k+2, …` in
creation order — no gaps, no repeats, failures in between notwithstanding;
the counter ends at `k + N` after `N` successes (one increment per successful
construction, never decremented) and is seeded at `0`. -/
theorem identities_consecutive (r : Registry)
    (attempts : List (List Char × Int × Int)) :
    consecutiveFrom r.uniqueId (runCreations r attempts).2 ∧
    (runCreations r attempts).1.uniqueId =
      r.uniqueId + ((runCreations r attempts).2.length : Int) ∧
    r.uniqueId ≤ (runCreations r attempts).1.uniqueId ∧
    initialRegistry.uniqueId = 0 := by
  obtain ⟨h1, h2⟩ := runCreations_ids attempts r
  refine ⟨h1, h2, ?_, rfl⟩
  rw [h2]
  omega

/-- C6: every valid triple constructs successfully; the accessors return the
inputs unchanged, and the canonical rendering is the name, the decimal
health and the decimal attack power joined by single spaces with nothing
after them. -/
theorem createWith_valid_triple (r : Registry) (n : List Char) (h a : Int)
    (hn : validateName n = none) (hh : validateHealth h = none)
    (ha : validateAttackPower a = none) :
    ∃ c r', createWith r n h a = Except.ok (c, r') ∧
      getName c = n ∧ getHealth c = h ∧ getAttackPower c = a ∧
      GameCharacter.toString c =
        String.mk n ++ " " ++ Int.repr h ++ " " ++ Int.repr a := by
  refine ⟨⟨n, h, a, r.uniqueId⟩, ⟨r.uniqueId + 1, r.ObjectCount + 1⟩,
    ?_, rfl, rfl, rfl, rfl⟩
  simp [createWith, init, setName, setHealth, setAttackPower, hn, hh, ha]

/-- Witness for C6 at `("Leonardo da Vinci", 1000, 20)`. -/
theorem createWith_valid_triple_witness :
    ∃ c r', createWith initialRegistry
        ['L', 'e', 'o', 'n', 'a', 'r', 'd', 'o', ' ', 'd', 'a', ' ',
         'V', 'i', 'n', 'c', 'i'] 1000 20 = Except.ok (c, r') ∧
      getName c = ['L', 'e', 'o', 'n', 'a', 'r', 'd', 'o', ' ', 'd', 'a', ' ',
         'V', 'i', 'n', 'c', 'i'] ∧
      getHealth c = 1000 ∧ getAttackPower c = 20 ∧
      GameCharacter.toString c =
        String.mk ['L', 'e', 'o', 'n', 'a', 'r', 'd', 'o', ' ', 'd', 'a', ' ',
          'V', 'i', 'n', 'c', 'i'] ++ " " ++ Int.repr 1000 ++ " " ++
          Int.repr 20 :=
  createWith_valid_triple initialRegistry
    ['L', 'e', 'o', 'n', 'a', 'r', 'd', 'o', ' ', 'd', 'a', ' ',
     'V', 'i', 'n', 'c', 'i'] 1000 20 (by decide) (by decide) (by decide)

/-- C7: health validation accepts exactly the sentinel `-1` and the integers
strictly between `0` and `MAX_HEALTH = 1000` inclusive; zero, negatives other
than `-1`, and everything above `1000` are rejected. -/
theorem validateHealth_iff (h : Int) :
    validateHealth h = none ↔ (h = -1 ∨ (0 < h ∧ h ≤ 1000)) := by
  unfold validateHealth
  split_ifs with h1 h2 <;> simp_all <;> omega

/-- C8: attack-power validation accepts exactly the integers at most
`MAX_POWER = 500`; in particular every negative value is accepted. -/
theorem validateAttackPower_iff (a : Int) :
    validateAttackPower a = none ↔ a ≤ 500 := by
  unfold validateAttackPower
  split_ifs with h1 <;> simp_all

/-- C9: each disposal decrements the live counter by exactly one, so `m`
disposals decrement it by exactly `m`, and the total-created counter is never
touched by disposal. -/
theorem dispose_counts (m : Nat) (r : Registry) :
    (disposeN m r).ObjectCount = r.ObjectCount - (m : Int) ∧
    (disposeN m r).uniqueId = r.uniqueId ∧
    (dispose r).ObjectCount = r.ObjectCount - 1 ∧
    (dispose r).uniqueId = r.uniqueId := by
  have key : ∀ (k : Nat) (s : Registry),
      (disposeN k s).ObjectCount = s.ObjectCount - (k : Int) ∧
      (disposeN k s).uniqueId = s.uniqueId := by
    intro k
    induction k with
    | zero => intro s; simp [disposeN]
    | succ k ih =>
      intro s
      obtain ⟨i1, i2⟩ := ih (dispose s)
      refine ⟨?_, ?_⟩
      · simp only [disposeN]
        rw [i1]
        simp only [dispose]
        push_cast
        ring
      · simp only [disposeN]
        rw [i2]
        rfl
  exact ⟨(key m r).1, (key m r).2, rfl, rfl⟩

/-- C10 counterexample: `"A! \0"` contains a space immediately followed by an
embedded NUL, yet validation rejects it as `NameInvalidCharacter` (the `'!'`
is hit first), not as the trailing-space error — so not every name with a
space-before-NUL is reported as `NameTrailingSpace`. -/
theorem space_nul_not_always_trailing :
    ['A', '!', ' ', nulChar].get? 2 = some ' ' ∧
    ['A', '!', ' ', nulChar].get? 3 = some nulChar ∧
    validateName ['A', '!', ' ', nulChar] = some NameError.invalidChar ∧
    some NameError.invalidChar ≠ some NameError.trailingSpace := by
  refine ⟨by decide, by decide, by decide, by decide⟩

/-- C10 (amended): the trailing-space check compares the character after the
current one with NUL, so whenever the scan reaches — with no earlier
violation, i.e. through an uppercase letter followed by letters and single
non-consecutive spaces — a space immediately followed by a NUL character,
embedded interior NUL included, the name is rejected with the trailing-space
error even though that space need not be the last character. -/
theorem space_before_nul_trailing (p : Char) (pre rest : List Char)
    (hp : isUpperChar p) (hpre : ∀ x ∈ pre, isAlphaChar x ∨ x = ' ')
    (hnd : noDoubleSpace (p :: pre))
    (hlen : (p :: pre ++ ' ' :: nulChar :: rest).length ≤ 32) :
    validateName (p :: pre ++ ' ' :: nulChar :: rest) =
      some NameError.trailingSpace := by
  rw [validateName_clean p pre (' ' :: nulChar :: rest) hp hpre hnd
    (fun _ => space_ne_nul) hlen]
  simp [nameLoop]

/-- Witness for C10 (amended) at the multi-run name `"A b \0c"`: the embedded
NUL is interior, the space is not the last character, and the error is the
trailing-space one. -/
theorem space_before_nul_trailing_witness :
    validateName ('A' :: [' ', 'b'] ++ ' ' :: nulChar :: ['c']) =
      some NameError.trailingSpace ∧
    lastChar ('A' :: [' ', 'b'] ++ ' ' :: nulChar :: ['c']) ≠ ' ' :=
  ⟨space_before_nul_trailing 'A' [' ', 'b'] ['c'] (by decide) (by decide)
      (by decide) (by decide),
   by decide⟩
